import Mathlib

/-!
Verification of the skill-download pipeline (`download_skills.py`).

The Python source is shallowly embedded: pure string manipulation is
translated to executable functions over `List Char` / `String`, the
network is abstracted as explicit oracles (page number to API response,
attempt number to transport success), and filesystem effects are
explicit state passing over a small record.  Python `str` operations are
modelled at the character-list level with the same semantics on the
ASCII inputs the program manipulates.
-/

/-- Python `needle.isPrefixOf`-style test used by `seqIn`. -/
def seqIn (needle : List Char) : List Char → Bool
  | [] => needle.isEmpty
  | c :: rest => needle.isPrefixOf (c :: rest) || seqIn needle rest

/-- Python `needle in hay` substring test on strings. -/
def strHas (hay needle : String) : Bool :=
  seqIn needle.data hay.data

/-- Python `s.lower()` (ASCII-faithful): lower-case every character. -/
def lowerStr (s : String) : String :=
  ⟨s.data.map Char.toLower⟩

/-- Python `s.split("/")` on character lists: split at every separator,
keeping empty fields, never returning an empty list of fields. -/
def splitOnChar (sep : Char) : List Char → List (List Char)
  | [] => [[]]
  | c :: rest =>
    if c = sep then [] :: splitOnChar sep rest
    else
      match splitOnChar sep rest with
      | h :: t => (c :: h) :: t
      | [] => [[c]]

/-- Python `"/".join(parts)`. -/
def joinSlash : List String → String
  | [] => ""
  | [s] => s
  | s :: rest => s ++ "/" ++ joinSlash rest

/-! ## Classifier (`SkillCategorizer`) -/

/-- One row of the static rule table: category name, top-level keywords,
and the ordered subcategory keyword lists. -/
structure Cat where
  name : String
  keywords : List String
  subs : List (String × List String)
deriving Repr, DecidableEq

def developmentCat : Cat :=
  ⟨"Development",
   ["development", "coding", "programming", "dev", "build", "compile"],
   [("Frontend", ["frontend", "react", "vue", "angular", "UI", "web design", "css", "html"]),
    ("Backend", ["backend", "api", "server", "database", "sql", "postgresql", "redis"]),
    ("Mobile", ["mobile", "ios", "android", "react native", "flutter", "swift", "kotlin"]),
    ("DevOps", ["devops", "ci/cd", "docker", "kubernetes", "deployment", "infrastructure"])]⟩

def dataCat : Cat :=
  ⟨"Data",
   ["data", "analytics", "analysis", "machine learning", "ml", "ai"],
   [("DataScience", ["data science", "statistics", "visualization", "pandas", "numpy"]),
    ("MachineLearning", ["machine learning", "deep learning", "neural network", "pytorch", "tensorflow"]),
    ("DataEngineering", ["etl", "pipeline", "data warehouse", "spark", "airflow"])]⟩

def testingCat : Cat :=
  ⟨"Testing",
   ["test", "testing", "qa", "quality", "e2e", "unit test", "integration"],
   [("UnitTesting", ["unit test", "jest", "pytest", "vitest"]),
    ("E2ETesting", ["e2e", "end-to-end", "playwright", "cypress", "selenium"]),
    ("Performance", ["performance", "load test", "benchmark", "profiling"])]⟩

def documentationCat : Cat :=
  ⟨"Documentation",
   ["documentation", "docs", "writing", "markdown", "readme"],
   [("Technical", ["technical writing", "api doc", "sdk doc"]),
    ("UserGuides", ["user guide", "tutorial", "how-to"]),
    ("Blog", ["blog", "article", "post"])]⟩

def securityCat : Cat :=
  ⟨"Security",
   ["security", "authentication", "authorization", "encryption", "compliance", "audit"],
   [("Auth", ["authentication", "oauth", "jwt", "sso"]),
    ("Audit", ["security audit", "vulnerability", "penetration test", "audit"]),
    ("Compliance", ["compliance", "gdpr", "hipaa", "pci", "regulatory"])]⟩

def designCat : Cat :=
  ⟨"Design",
   ["design", "ui", "ux", "visual", "graphic"],
   [("UIDesign", ["ui design", "interface", "component library"]),
    ("UXDesign", ["ux design", "user experience", "usability"]),
    ("Graphics", ["graphics", "illustration", "image"])]⟩

def businessCat : Cat :=
  ⟨"Business",
   ["business", "product", "management", "strategy", "marketing"],
   [("ProductManagement", ["product", "prd", "roadmap", "feature"]),
    ("Marketing", ["marketing", "seo", "content", "social media"]),
    ("Analytics", ["analytics", "metrics", "kpi", "dashboard"])]⟩

def researchCat : Cat :=
  ⟨"Research",
   ["research", "scientific", "academic", "paper", "study"],
   [("Scientific", ["scientific", "biology", "chemistry", "physics"]),
    ("Academic", ["academic", "publication", "citation"]),
    ("Medical", ["medical", "healthcare", "clinical"])]⟩

/-- Embedding of `SkillCategorizer.CATEGORIES`, in declaration order. -/
def CATEGORIES : List Cat :=
  [developmentCat, dataCat, testingCat, documentationCat,
   securityCat, designCat, businessCat, researchCat]

/-- Python `any(keyword in desc_lower for keyword in keywords)`. -/
def matchKw (descLower : String) (kws : List String) : Bool :=
  kws.any (fun kw => strHas descLower kw)

/-- First pass of `categorize`: scan every category's subcategories in
declaration order, returning the first `(category, subcategory)` hit. -/
def findSubcat (descLower : String) : List Cat → Option (String × String)
  | [] => none
  | c :: rest =>
    match c.subs.find? (fun sc => matchKw descLower sc.2) with
    | some sc => some (c.name, sc.1)
    | none => findSubcat descLower rest

/-- Second pass of `categorize`: scan top-level keyword lists in order. -/
def findTop (descLower : String) : List Cat → Option String
  | [] => none
  | c :: rest =>
    if matchKw descLower c.keywords then some c.name
    else findTop descLower rest

/-- Embedding of `SkillCategorizer.categorize`. -/
def categorize (description : String) : String × Option String :=
  if description = "" then ("Uncategorized", none)
  else
    let descLower := lowerStr description
    match findSubcat descLower CATEGORIES with
    | some (c, sc) => (c, some sc)
    | none =>
      match findTop descLower CATEGORIES with
      | some c => (c, none)
      | none => ("Uncategorized", none)

/-! ## Source locator (`parse_github_url`) -/

structure UrlInfo where
  owner : String
  repo : String
  branch : String
  path : String
deriving Repr, DecidableEq

/-- The literal pattern of `url.replace("https://github.com/", "")`. -/
def ghMarker : List Char := "https://github.com/".data

/-- Python `url.replace("https://github.com/", "")`: remove every
non-overlapping occurrence, scanning left to right.  `fuel` bounds the
scan and is instantiated with the input length. -/
def dropGh : Nat → List Char → List Char
  | 0, s => s
  | _ + 1, [] => []
  | fuel + 1, c :: rest =>
    if ghMarker.isPrefixOf (c :: rest) then dropGh fuel ((c :: rest).drop ghMarker.length)
    else c :: dropGh fuel rest

/-- The shape check on the split parts:
`if len(parts) < 4 or parts[2] != "tree": return None` followed by the
field extraction `parts[0], parts[1], parts[3], "/".join(parts[4:])`. -/
def partsToInfo : List String → Option UrlInfo
  | owner :: repo :: seg :: branch :: rest =>
    if seg = "tree" then some ⟨owner, repo, branch, joinSlash rest⟩ else none
  | _ => none

/-- The part of `parse_github_url` after `rstrip("/")`: strip the GitHub
marker, split on `/`, and demand `owner/repo/tree/branch/...`. -/
def parseCore (stripped : List Char) : Option UrlInfo :=
  partsToInfo ((splitOnChar '/' (dropGh stripped.length stripped)).map (fun l => String.mk l))

/-- Embedding of `SkillsDownloader.parse_github_url`. -/
def parse_github_url (github_url : String) : Option UrlInfo :=
  if github_url = "" then none
  else parseCore ((github_url.data.reverse.dropWhile (fun c => c = '/')).reverse)

/-- A browse URL assembled from a host and slash-joined path segments,
following the spec's `host/owner/repo/tree/branch/path...` shape. -/
def browse_url (host : String) (segs : List String) : String :=
  "https://" ++ host ++ "/" ++ joinSlash segs

/-- Claim C3 as stated: every browse URL with fewer than four path
segments after the host, or whose third path segment is not the literal
token `tree`, parses to `none`. -/
def claimC3 : Prop :=
  ∀ (host : String) (segs : List String),
    host.data ≠ [] → '/' ∉ host.data →
    (∀ s ∈ segs, s.data ≠ [] ∧ '/' ∉ s.data) →
    (segs.length < 4 ∨ segs.getD 2 "" ≠ "tree") →
    parse_github_url (browse_url host segs) = none

/-- Character-level slash-join, mirroring `joinSlash` on `.data`. -/
def charJoin : List (List Char) → List Char
  | [] => []
  | [l] => l
  | l :: ls => l ++ '/' :: charJoin ls

/-- Adjacent characters are not both `/` — the separation invariant of
a slash-join of slash-free segments. -/
def sepOk (a b : Char) : Prop := ¬(a = '/' ∧ b = '/')

instance : DecidableRel sepOk :=
  fun a b => inferInstanceAs (Decidable (¬(a = '/' ∧ b = '/')))

/-! ## Catalog client (`search_skills`, `get_all_skills`, `get_top_skills`) -/

/-- A catalog item, with the fields the pipeline reads. -/
structure Skill where
  name : String
  githubUrl : String
  description : String
  stars : Nat
deriving Repr, DecidableEq

/-- Pagination metadata; the callers read only `hasNext`, and a missing
dictionary entry reads as `false`. -/
structure Pagination where
  hasNext : Bool
deriving Repr, DecidableEq

/-- Outcome of one `GET /skills/search` request. -/
inductive ApiResult where
  | transportError
  | apiUnsuccessful
  | ok (skills : List Skill) (pagination : Pagination)
deriving Repr, DecidableEq

/-- Embedding of `SkillsDownloader.search_skills`, as a function of the request
outcome: transport and non-success failures collapse to `([], {})`. -/
def search_skills : ApiResult → List Skill × Pagination
  | .transportError => ([], ⟨false⟩)
  | .apiUnsuccessful => ([], ⟨false⟩)
  | .ok skills pagination => (skills, pagination)

/-- Python truthiness of `max_skills and total_downloaded >= max_skills`. -/
def maxReached (maxSkills : Option Nat) (total : Nat) : Bool :=
  match maxSkills with
  | none => false
  | some m => decide (0 < m) && decide (m ≤ total)

/-- The `while True` pagination loop of `get_all_skills`; `oracle` maps a
page number to its API outcome and `fuel` bounds the number of
iterations. -/
def gasGo (oracle : Nat → ApiResult) (minStars : Nat) (maxSkills : Option Nat) :
    Nat → Nat → List Skill → Nat → List Skill
  | 0, _, acc, _ => acc
  | fuel + 1, page, acc, total =>
    match search_skills (oracle page) with
    | (skills, pagination) =>
      if skills.isEmpty then acc
      else
        let kept := if 0 < minStars then skills.filter (fun s => minStars ≤ s.stars) else skills
        let acc2 := acc ++ kept
        let total2 := total + kept.length
        if maxReached maxSkills total2 then acc2.take (maxSkills.getD 0)
        else if pagination.hasNext then gasGo oracle minStars maxSkills fuel (page + 1) acc2 total2
        else acc2

/-- Embedding of `SkillsDownloader.get_all_skills`. -/
def get_all_skills (oracle : Nat → ApiResult) (fuel minStars : Nat)
    (maxSkills : Option Nat) : List Skill :=
  gasGo oracle minStars maxSkills fuel 1 [] 0

/-- The `while len(all_skills) < n` loop of `get_top_skills`. -/
def gtsGo (oracle : Nat → ApiResult) (n : Nat) : Nat → Nat → List Skill → List Skill
  | 0, _, acc => acc
  | fuel + 1, page, acc =>
    if acc.length < n then
      match search_skills (oracle page) with
      | (skills, pagination) =>
        if skills.isEmpty then acc
        else
          let acc2 := acc ++ skills
          if n ≤ acc2.length then acc2.take n
          else if pagination.hasNext then gtsGo oracle n fuel (page + 1) acc2
          else acc2
    else acc

/-- Embedding of `SkillsDownloader.get_top_skills`: accumulate unfiltered until `n`
items are collected, then apply the star filter once at the end. -/
def get_top_skills (oracle : Nat → ApiResult) (fuel n minStars : Nat) : List Skill :=
  let all := gtsGo oracle n fuel 1 []
  if 0 < minStars then all.filter (fun s => minStars ≤ s.stars) else all

/-! ## Per-file retry loop (`download_file_from_github`) -/

/-- The `for attempt in range(self.max_retries)` loop.  `oracle` tells
whether a given (0-based) attempt's transport succeeds.  Returns the
outcome, the number of attempts performed, and the list of waits (in
delay units) slept between consecutive attempts. -/
def dfGo (oracle : Nat → Bool) (retryDelay maxRetries : Nat) : Nat → Nat → Bool × Nat × List Nat
  | _, 0 => (false, 0, [])
  | attempt, fuel + 1 =>
    if oracle attempt then (true, 1, [])
    else if attempt + 1 < maxRetries then
      match dfGo oracle retryDelay maxRetries (attempt + 1) fuel with
      | (res, tries, waits) => (res, tries + 1, retryDelay * (attempt + 1) :: waits)
    else (false, 1, [])

/-- Embedding of `SkillsDownloader.download_file_from_github`: the retry loop entered
at attempt 0 with `max_retries` iterations available. -/
def download_file_from_github (maxRetries retryDelay : Nat) (oracle : Nat → Bool) :
    Bool × Nat × List Nat :=
  dfGo oracle retryDelay maxRetries 0 maxRetries

/-! ## Per-item acquisition (`download_skill`) -/

/-- The slice of filesystem state `download_skill` observes about one
item: whether its destination directory exists, whether that directory
is empty, and whether `SKILL.md` is present under it. -/
structure FS where
  dirExists : Bool
  dirEmpty : Bool
  skillMd : Bool
deriving Repr, DecidableEq

/-- Outcome of the `download_github_directory` mirror step: either it
raises, or it returns a file count; both carry the filesystem state at
that point. -/
inductive MirrorStep where
  | raises (fs : FS)
  | returns (count : Nat) (fs : FS)
deriving Repr, DecidableEq

/-- Outcome of the `download_skill_md_directly` fallback, with the
filesystem state it leaves behind. -/
inductive FallbackStep where
  | succeeds (fs : FS)
  | fails (fs : FS)
deriving Repr, DecidableEq

/-- The cleanup in `download_skill`:
`if skill_dir.exists() and not any(skill_dir.iterdir()): skill_dir.rmdir()`. -/
def cleanupEmptyDir (fs : FS) : FS :=
  if fs.dirExists && fs.dirEmpty then { fs with dirExists := false } else fs

/-- Embedding of `SkillsDownloader.download_skill` as a state machine over `FS`:
check URL presence, parse it, honour the resume check, then run the
mirror step and the fallback, and on failure remove the destination
directory when it is empty.  Returns `(succeeded, final filesystem)`. -/
def download_skill (githubUrl : String) (force : Bool) (pre : FS)
    (mirror : MirrorStep) (fallback : FallbackStep) : Bool × FS :=
  if githubUrl = "" then (false, pre)
  else
    match parse_github_url githubUrl with
    | none => (false, pre)
    | some _ =>
      if pre.skillMd && !force then (true, pre)
      else
        match mirror with
        | .raises fs => (false, cleanupEmptyDir fs)
        | .returns count fs =>
          let res :=
            if count = 0 || !fs.skillMd then
              match fallback with
              | .succeeds fsb => (1, fsb)
              | .fails fsb => (count, fsb)
            else (count, fs)
          if 0 < res.1 && res.2.skillMd then (true, res.2)
          else (false, cleanupEmptyDir res.2)

/-! ## Parallel orchestration (`download_skills_parallel`) -/

/-- Embedding of `SkillsDownloader.is_already_downloaded`: membership of the item
name in the run registry. -/
def is_already_downloaded (registry : List String) (s : Skill) : Bool :=
  registry.contains s.name

/-- The pre-pool filter of `download_skills_parallel`: drop items whose
name is registered, unless `force` is set. -/
def skills_to_download (registry : List String) (skills : List Skill) (force : Bool) :
    List Skill :=
  skills.filter (fun s => !(is_already_downloaded registry s && !force))

/-- Embedding of `SkillsDownloader.download_skills_parallel`: filter out registered
items; when nothing is left return `(0, len(skills))`, otherwise run the
pool (`outcome` gives each submitted item's result, an exception
counting as failure) and return `(successes, submitted)`. -/
def download_skills_parallel (registry : List String) (skills : List Skill)
    (force : Bool) (outcome : Skill → Bool) : Nat × Nat :=
  let td := skills_to_download registry skills force
  if td.isEmpty then (0, skills.length)
  else ((td.filter outcome).length, td.length)

/-! ## Concrete test data -/

/-- The eight-item catalog of the spec's end-to-end top-N example, with
popularity scores `[500, 400, 300, 250, 200, 150, 90, 10]`. -/
def topCatalog : List Skill :=
  [⟨"s1", "u", "", 500⟩, ⟨"s2", "u", "", 400⟩, ⟨"s3", "u", "", 300⟩, ⟨"s4", "u", "", 250⟩,
   ⟨"s5", "u", "", 200⟩, ⟨"s6", "u", "", 150⟩, ⟨"s7", "u", "", 90⟩, ⟨"s8", "u", "", 10⟩]

/-- A catalog server holding exactly `topCatalog`, delivered on page 1. -/
def topOracle : Nat → ApiResult :=
  fun p => if p = 1 then .ok topCatalog ⟨false⟩ else .ok [] ⟨false⟩

def skA : Skill := ⟨"a", "u", "", 0⟩

def skB : Skill := ⟨"b", "u", "", 0⟩

/-! ## Claim C1 -/

/-- Claim C1 counterexample: with n = 5 and threshold 100 against the
spec's catalog, `get_top_skills` does not return the 4 items with scores
`[500, 400, 300, 250]` — every one of the top 5 scores is at least 100,
so the post-fetch filter removes nothing and 5 items are returned. -/
theorem c1_filter_counterexample :
    get_top_skills topOracle 1 5 100 ≠
      [⟨"s1", "u", "", 500⟩, ⟨"s2", "u", "", 400⟩, ⟨"s3", "u", "", 300⟩,
       ⟨"s4", "u", "", 250⟩] := by
  decide

/-- Claim C1 (amended): for any page budget of at least one page, the
top-N loop fetches the top 5 items unfiltered; with threshold 100 the
final filter keeps all 5 of them (scores `[500, 400, 300, 250, 200]`),
and with threshold 250 it trims below the requested N, returning the 4
items `[500, 400, 300, 250]`. -/
theorem c1_top_fetch_filter (fuel : Nat) (h : 1 ≤ fuel) :
    gtsGo topOracle 5 fuel 1 [] = topCatalog.take 5 ∧
    get_top_skills topOracle fuel 5 100 = topCatalog.take 5 ∧
    get_top_skills topOracle fuel 5 250 = topCatalog.take 4 := by
  obtain ⟨f, rfl⟩ : ∃ f, fuel = f + 1 := ⟨fuel - 1, by omega⟩
  have hgo : gtsGo topOracle 5 (f + 1) 1 [] = topCatalog.take 5 := by
    rw [gtsGo]
    norm_num [search_skills, topOracle, topCatalog]
  refine ⟨hgo, ?_, ?_⟩ <;> rw [get_top_skills, hgo] <;> decide

theorem c1_top_fetch_filter_witness :
    1 ≤ 1 ∧ get_top_skills topOracle 1 5 100 = topCatalog.take 5 :=
  ⟨Nat.le_refl 1, (c1_top_fetch_filter 1 (Nat.le_refl 1)).2.1⟩

/-! ## Claim C4 -/

/-- Claim C4 counterexample: the code only strips the literal marker
`https://github.com/`, so on the spec's URL with host `host` the scheme
and host themselves become path parts, the third part is `host`, not
`tree`, and parsing fails. -/
theorem c4_host_counterexample :
    parse_github_url "https://host/acme/widgets/tree/main/examples/demo" ≠
      some ⟨"acme", "widgets", "main", "examples/demo"⟩ := by
  decide

/-- Claim C4 (amended): with the host the code actually recognizes,
`github.com`, the browse URL parses to the expected coordinates. -/
theorem c4_parse_example :
    parse_github_url "https://github.com/acme/widgets/tree/main/examples/demo" =
      some ⟨"acme", "widgets", "main", "examples/demo"⟩ := by
  decide

/-! ## Claim C6 -/

/-- The retry loop under an always-failing transport: starting at any
attempt index, it performs exactly the remaining number of attempts and
sleeps `retryDelay * k` before attempt `k` (1-based), for `k` up to
`maxRetries - 1`. -/
theorem dfGo_allFail (oracle : Nat → Bool) (h : ∀ k, oracle k = false)
    (d maxRetries : Nat) :
    ∀ fuel attempt, attempt + fuel = maxRetries →
      dfGo oracle d maxRetries attempt fuel =
        (false, fuel, (List.range' (attempt + 1) (fuel - 1)).map (fun k => d * k)) := by
  intro fuel
  induction fuel with
  | zero => intro attempt _; rfl
  | succ f ih =>
    intro attempt hsum
    rw [dfGo, h attempt]
    simp only [Bool.false_eq_true, if_false]
    cases f with
    | zero =>
      rw [if_neg (by omega)]
      rfl
    | succ g =>
      rw [if_pos (by omega), ih (attempt + 1) (by omega)]
      simp [List.range'_succ]

/-- Claim C6: a file download whose transport fails on every attempt
performs exactly `maxRetries` attempts, waits `retryDelay * k` before
the k-th retry (linear backoff, k = 1 .. maxRetries - 1), and returns
failure (`false`) to its caller instead of raising. -/
theorem c6_retry_bound (maxRetries retryDelay : Nat) (oracle : Nat → Bool)
    (h : ∀ k, oracle k = false) :
    download_file_from_github maxRetries retryDelay oracle =
      (false, maxRetries,
        (List.range' 1 (maxRetries - 1)).map (fun k => retryDelay * k)) :=
  dfGo_allFail oracle h retryDelay maxRetries maxRetries 0 (Nat.zero_add _)

theorem c6_retry_bound_witness :
    download_file_from_github 3 2 (fun _ => false) = (false, 3, [2, 4]) :=
  (c6_retry_bound 3 2 (fun _ => false) (fun _ => rfl)).trans (by decide)

/-! ## Claim C7 -/

/-- Claim C7: a transport failure or a non-success API response makes
`search_skills` return an empty item list and an empty pagination state,
and both pagination loops, on reaching such a page, stop at once and
return exactly what they have accumulated — indistinguishable from true
end-of-data, for any remaining page budget. -/
theorem c7_error_empty (oracle : Nat → ApiResult) (p : Nat)
    (h : oracle p = .transportError ∨ oracle p = .apiUnsuccessful) :
    search_skills (oracle p) = ([], ⟨false⟩) ∧
    (∀ fuel minStars maxSkills acc total,
      gasGo oracle minStars maxSkills (fuel + 1) p acc total = acc) ∧
    (∀ fuel n acc, gtsGo oracle n (fuel + 1) p acc = acc) := by
  have hs : search_skills (oracle p) = ([], ⟨false⟩) := by
    rcases h with h | h <;> rw [h] <;> rfl
  refine ⟨hs, ?_, ?_⟩
  · intro fuel minStars maxSkills acc total
    rw [gasGo, hs]
    rfl
  · intro fuel n acc
    rw [gtsGo, hs]
    split <;> rfl

theorem c7_error_empty_witness :
    search_skills ((fun _ => ApiResult.transportError) 1) = ([], ⟨false⟩) ∧
    gasGo (fun _ => ApiResult.transportError) 0 none 3 1 [] 0 = [] ∧
    gtsGo (fun _ => ApiResult.transportError) 7 3 1 [] = [] := by
  obtain ⟨h1, h2, h3⟩ := c7_error_empty (fun _ => ApiResult.transportError) 1 (Or.inl rfl)
  exact ⟨h1, h2 2 0 none [] 0, h3 2 7 []⟩

/-! ## Claim C2 -/

/-- Claim C2 counterexample: when every item of the run is already
registered (here the single item `skA`, whose manifest prefilled the
registry), the pair returned by the parallel download is `(0, 1)` — the
skipped item IS counted in the returned attempted total, contradicting
the claim that it never is. -/
theorem c2_skip_counterexample :
    (download_skills_parallel ["a"] [skA] false (fun _ => true)).2 ≠ 0 := by
  decide

/-- Claim C2 (amended): an item `s` whose name the registry prefill
recorded is never submitted to the pool (so no network is issued for
it — the run's result does not depend on its would-be outcome), and as
long as at least one item `t` of the run is unregistered, the attempted
count is the number of submitted items, which excludes `s`. -/
theorem c2_resume_skip (registry : List String) (skills : List Skill) (s : Skill)
    (hs : s ∈ skills) (hreg : is_already_downloaded registry s = true)
    (t : Skill) (ht : t ∈ skills) (htnew : is_already_downloaded registry t = false)
    (outcome outcome2 : Skill → Bool) (hagree : ∀ x, x ≠ s → outcome2 x = outcome x) :
    s ∉ skills_to_download registry skills false ∧
    download_skills_parallel registry skills false outcome2 =
      download_skills_parallel registry skills false outcome ∧
    (download_skills_parallel registry skills false outcome).2 =
      (skills_to_download registry skills false).length := by
  have hsnot : s ∉ skills_to_download registry skills false := by
    intro hmem
    have := (List.mem_filter.mp hmem).2
    simp [hreg] at this
  have htd : t ∈ skills_to_download registry skills false :=
    List.mem_filter.mpr ⟨ht, by simp [htnew]⟩
  have hne : (skills_to_download registry skills false).isEmpty = false := by
    rcases h : (skills_to_download registry skills false).isEmpty with _ | _
    · rfl
    · rw [List.isEmpty_iff] at h
      rw [h] at htd
      cases htd
  have hfil : (skills_to_download registry skills false).filter outcome2 =
      (skills_to_download registry skills false).filter outcome := by
    apply List.filter_congr
    intro x hx
    exact hagree x (fun he => hsnot (he ▸ hx))
  refine ⟨hsnot, ?_, ?_⟩
  · rw [download_skills_parallel, download_skills_parallel, hne, hfil]
  · rw [download_skills_parallel, hne]
    rfl

theorem c2_resume_skip_witness :
    skA ∉ skills_to_download ["a"] [skA, skB] false ∧
    download_skills_parallel ["a"] [skA, skB] false (fun _ => true) =
      download_skills_parallel ["a"] [skA, skB] false (fun _ => true) ∧
    (download_skills_parallel ["a"] [skA, skB] false (fun _ => true)).2 =
      (skills_to_download ["a"] [skA, skB] false).length :=
  c2_resume_skip ["a"] [skA, skB] skA (by decide) (by decide) skB (by decide) (by decide)
    (fun _ => true) (fun _ => true) (fun _ _ => rfl)

/-! ## Claim C10 -/

/-- Claim C10: the attempted count is inconsistent at the skip boundary.
If every input item is registered (and force is off) the call returns
`(0, skills.length)`, counting the skipped items; if at least one item
is new, the returned total counts only the non-skipped items. -/
theorem c10_attempted_boundary (registry : List String) (skills : List Skill)
    (outcome : Skill → Bool) :
    ((∀ s ∈ skills, is_already_downloaded registry s = true) →
      download_skills_parallel registry skills false outcome = (0, skills.length)) ∧
    ((∃ s ∈ skills, is_already_downloaded registry s = false) →
      (download_skills_parallel registry skills false outcome).2 =
        (skills.filter (fun s => !is_already_downloaded registry s)).length) := by
  constructor
  · intro hall
    have htd : skills_to_download registry skills false = [] := by
      apply List.filter_eq_nil_iff.mpr
      intro a ha
      simp [hall a ha]
    rw [download_skills_parallel, htd]
    rfl
  · rintro ⟨s, hs, hnew⟩
    have htdeq : skills_to_download registry skills false =
        skills.filter (fun s => !is_already_downloaded registry s) := by
      apply List.filter_congr
      intro a _
      simp
    have htd : s ∈ skills_to_download registry skills false :=
      List.mem_filter.mpr ⟨hs, by simp [hnew]⟩
    have hne : (skills_to_download registry skills false).isEmpty = false := by
      rcases h : (skills_to_download registry skills false).isEmpty with _ | _
      · rfl
      · rw [List.isEmpty_iff] at h
        rw [h] at htd
        cases htd
    rw [download_skills_parallel, hne, ← htdeq]
    rfl

theorem c10_attempted_boundary_witness :
    download_skills_parallel ["a"] [skA] false (fun _ => true) = (0, 1) ∧
    (download_skills_parallel ["a"] [skA, skB] false (fun _ => true)).2 = 1 := by
  constructor
  · exact (c10_attempted_boundary ["a"] [skA] (fun _ => true)).1 (by decide)
  · exact ((c10_attempted_boundary ["a"] [skA, skB] (fun _ => true)).2
      ⟨skB, by decide, by decide⟩).trans (by decide)

/-! ## Claim C8 -/

/-- Claim C8 counterexample: an item with a missing source URL fails,
but `download_skill` returns before any cleanup code runs — a
pre-existing empty destination directory (`dirExists`, `dirEmpty`) is
left in place, contradicting the claim that an existing empty
destination directory is removed on every failure. -/
theorem c8_missing_url_counterexample :
    download_skill "" false ⟨true, true, false⟩ (.returns 0 ⟨true, true, false⟩)
        (.fails ⟨true, true, false⟩) = (false, ⟨true, true, false⟩) ∧
    (⟨true, true, false⟩ : FS).dirExists = true ∧
    (⟨true, true, false⟩ : FS).dirEmpty = true := by
  decide

/-- Claim C8 (amended): every failure mode returns failure, but the
empty-directory cleanup runs only on the mirror-exception and the
zero-files/no-fallback paths; for a missing or unparseable source URL
the function returns with the filesystem untouched.  Where cleanup does
run, it never leaves an empty destination directory behind. -/
theorem c8_failure_cleanup (url : String) (pre fsx fsb : FS) (cnt : Nat)
    (mir : MirrorStep) (fb : FallbackStep)
    (hmd : pre.skillMd = false) (hurl : url ≠ "")
    (hparse : (parse_github_url url).isSome = true) :
    download_skill "" false pre mir fb = (false, pre) ∧
    (∀ u, u ≠ "" → parse_github_url u = none →
      download_skill u false pre mir fb = (false, pre)) ∧
    download_skill url false pre (.raises fsx) fb = (false, cleanupEmptyDir fsx) ∧
    ((cnt = 0 ∨ fsx.skillMd = false) → fsb.skillMd = false →
      download_skill url false pre (.returns cnt fsx) (.fails fsb) =
        (false, cleanupEmptyDir fsb)) ∧
    (∀ g : FS, ¬((cleanupEmptyDir g).dirExists = true ∧
      (cleanupEmptyDir g).dirEmpty = true)) := by
  obtain ⟨info, hinfo⟩ := Option.isSome_iff_exists.mp hparse
  refine ⟨rfl, ?_, ?_, ?_, ?_⟩
  · intro u hu hnone
    rw [download_skill.eq_def, if_neg hu, hnone]
  · rw [download_skill.eq_def, if_neg hurl, hinfo]
    simp [hmd]
  · intro hc hb
    rw [download_skill.eq_def, if_neg hurl, hinfo]
    simp only [hmd, Bool.false_and, Bool.false_eq_true, if_false]
    have hcond : (cnt = 0 || !fsx.skillMd) = true := by
      rcases hc with hc | hc <;> simp [hc]
    simp only [hcond, if_true, hb]
    simp
  · intro g
    rw [cleanupEmptyDir]
    split
    · simp
    · rename_i hg
      intro hand
      exact hg (by simp [hand.1, hand.2])

theorem c8_failure_cleanup_witness :
    download_skill "https://github.com/a/b/tree/c" false ⟨false, false, false⟩
        (MirrorStep.raises ⟨true, true, false⟩) (FallbackStep.fails ⟨false, false, false⟩) =
      (false, ⟨false, true, false⟩) := by
  have h := c8_failure_cleanup "https://github.com/a/b/tree/c" ⟨false, false, false⟩
    ⟨true, true, false⟩ ⟨false, false, false⟩ 0 (MirrorStep.raises ⟨true, true, false⟩)
    (FallbackStep.fails ⟨false, false, false⟩) rfl (by decide) (by decide)
  exact h.2.2.1.trans (by decide)

/-! ## Claim C9 -/

/-- Converting a small code point to `Char` and back is the identity. -/
theorem char_toNat_ofNat_small (m : Nat) (h : m < 55296) : (Char.ofNat m).toNat = m := by
  have hv : m.isValidChar := Or.inl h
  rw [Char.ofNat, dif_pos hv]
  rfl

/-- Lower-casing never produces the upper-case letter `U`. -/
theorem char_toLower_ne_U (c : Char) : Char.toLower c ≠ 'U' := by
  intro h
  simp only [Char.toLower] at h
  split at h
  · rename_i hcond
    obtain ⟨h1, h2⟩ := hcond
    have h85 : (Char.ofNat (c.toNat + 32)).toNat = 'U'.toNat := by rw [h]
    rw [char_toNat_ofNat_small (c.toNat + 32) (by omega)] at h85
    have : 'U'.toNat = 85 := by decide
    omega
  · rename_i hcond
    rw [h] at hcond
    exact hcond (by decide)

/-- If a two-character needle occurs in `l`, its first character is an
element of `l`. -/
theorem seqIn_two_mem (a b : Char) (l : List Char) (h : seqIn [a, b] l = true) :
    a ∈ l := by
  induction l with
  | nil => simp [seqIn, List.isEmpty] at h
  | cons c rest ih =>
    rw [seqIn] at h
    rcases (Bool.or_eq_true _ _).mp h with hp | hr
    · have hac : (a == c) = true := by
        rw [List.isPrefixOf] at hp
        exact ((Bool.and_eq_true _ _).mp hp).1
      have : a = c := by
        exact beq_iff_eq.mp hac
      rw [this]
      exact List.mem_cons_self c rest
    · exact List.mem_cons_of_mem c (ih hr)

/-- Claim C9: `categorize` lower-cases the description but keyword
matching is case-sensitive, so the upper-case Frontend keyword `UI`
can never match any description; in particular `categorize "UI"`
classifies via Design's top-level keyword `ui`, giving
`("Design", none)` rather than `("Development", some "Frontend")`. -/
theorem c9_uppercase_keyword :
    (∀ d : String, strHas (lowerStr d) "UI" = false) ∧
    categorize "UI" = ("Design", none) := by
  constructor
  · intro d
    rcases hv : strHas (lowerStr d) "UI" with _ | _
    · rfl
    · exfalso
      have hseq : seqIn ['U', 'I'] (d.data.map Char.toLower) = true := hv
      have hm : 'U' ∈ d.data.map Char.toLower := seqIn_two_mem 'U' 'I' _ hseq
      obtain ⟨c, _, hc⟩ := List.mem_map.mp hm
      exact char_toLower_ne_U c hc
  · decide

/-! ## Claim C5 -/

/-- Claim C5: all subcategory keyword lists are scanned in declaration
order before any top-level keywords, and Development is the first
category, so any description containing a Development subcategory
keyword — in particular one that also contains a Security top-level
keyword — is classified under Development with some subcategory; and
concretely `categorize "backend api server" = ("Development", some
"Backend")`. -/
theorem c5_declaration_order (d : String)
    (hdev : developmentCat.subs.any (fun sc => matchKw (lowerStr d) sc.2) = true)
    (hsec : matchKw (lowerStr d) securityCat.keywords = true) :
    (categorize d).1 = "Development" ∧ (categorize d).2.isSome = true ∧
    categorize "backend api server" = ("Development", some "Backend") := by
  have hd : ¬(d = "") := by
    intro he
    rw [he] at hdev
    revert hdev
    decide
  have hfind : (developmentCat.subs.find? (fun sc => matchKw (lowerStr d) sc.2)).isSome := by
    rw [List.find?_isSome]
    exact List.any_eq_true.mp hdev
  obtain ⟨sc, hsc⟩ := Option.isSome_iff_exists.mp hfind
  have hfs : findSubcat (lowerStr d) CATEGORIES = some ("Development", sc.1) := by
    rw [CATEGORIES, findSubcat, hsc]
    rfl
  have hcat : categorize d = ("Development", some sc.1) := by
    rw [categorize.eq_def, if_neg hd]
    simp only [hfs]
  rw [hcat]
  exact ⟨rfl, rfl, by decide⟩

theorem c5_declaration_order_witness :
    (categorize "backend security audit").1 = "Development" ∧
    (categorize "backend security audit").2.isSome = true ∧
    categorize "backend api server" = ("Development", some "Backend") :=
  c5_declaration_order "backend security audit" (by decide) (by decide)

/-! ## Claim C3 -/

/-- Rebuilding a string from its characters is the identity. -/
theorem string_mk_data (s : String) : String.mk s.data = s := rfl

/-- The function `joinSlash` agrees with the character-level join. -/
theorem joinSlash_data : ∀ segs : List String,
    (joinSlash segs).data = charJoin (segs.map String.data)
  | [] => rfl
  | [_] => rfl
  | s :: s' :: rest => by
    show (s ++ "/" ++ joinSlash (s' :: rest)).data =
      s.data ++ '/' :: charJoin (List.map String.data (s' :: rest))
    rw [String.data_append, String.data_append, joinSlash_data (s' :: rest)]
    simp

/-- A slash-free character list trivially satisfies the separation
invariant. -/
theorem chain'_of_no_slash (l : List Char) (h : '/' ∉ l) : l.Chain' sepOk := by
  induction l with
  | nil => exact List.chain'_nil
  | cons a rest ih =>
    cases rest with
    | nil => exact List.chain'_singleton a
    | cons b t =>
      rw [List.chain'_cons]
      refine ⟨?_, ih (fun hm => h (List.mem_cons_of_mem a hm))⟩
      rintro ⟨ha, -⟩
      subst ha
      exact h (List.mem_cons_self _ _)

/-- The character-level join of a nonempty first segment starts with
that segment's first character. -/
theorem charJoin_cons_head (x : Char) (xs : List Char) (ls : List (List Char)) :
    ∃ t, charJoin ((x :: xs) :: ls) = x :: t := by
  cases ls with
  | nil => exact ⟨xs, rfl⟩
  | cons l' ls' => exact ⟨xs ++ '/' :: charJoin (l' :: ls'), rfl⟩

/-- Joining nonempty slash-free segments never produces two adjacent
slashes. -/
theorem charJoin_chain' : ∀ L : List (List Char),
    (∀ l ∈ L, l ≠ [] ∧ '/' ∉ l) → (charJoin L).Chain' sepOk
  | [], _ => List.chain'_nil
  | [l], h => chain'_of_no_slash l (h l (List.mem_singleton.mpr rfl)).2
  | l :: l' :: ls, h => by
    have hl := h l (List.mem_cons_self _ _)
    have hrest : ∀ x ∈ l' :: ls, x ≠ [] ∧ '/' ∉ x :=
      fun x hx => h x (List.mem_cons_of_mem _ hx)
    have hJ := charJoin_chain' (l' :: ls) hrest
    show (l ++ '/' :: charJoin (l' :: ls)).Chain' sepOk
    rw [List.chain'_append]
    refine ⟨chain'_of_no_slash l hl.2, ?_, ?_⟩
    · rw [List.chain'_cons']
      refine ⟨?_, hJ⟩
      intro y hy
      obtain ⟨x, xs, hx⟩ : ∃ x xs, l' = x :: xs := by
        rcases hl' : l' with _ | ⟨x, xs⟩
        · exact absurd hl' (hrest l' (List.mem_cons_self _ _)).1
        · exact ⟨x, xs, rfl⟩
      rw [hx] at hy
      obtain ⟨t, ht⟩ := charJoin_cons_head x xs ls
      rw [ht] at hy
      simp only [List.head?_cons, Option.mem_def, Option.some.injEq] at hy
      subst hy
      rintro ⟨-, hy2⟩
      have hxm : x ∈ l' := by
        rw [hx]
        exact List.mem_cons_self _ _
      rw [hy2] at hxm
      exact (hrest l' (List.mem_cons_self _ _)).2 hxm
    · intro a ha b hb
      have hal : a ∈ l := List.mem_of_getLast?_eq_some (Option.mem_def.mp ha)
      rintro ⟨ha2, -⟩
      rw [ha2] at hal
      exact hl.2 hal

/-- Anything starting with the GitHub marker contains two adjacent
slashes, violating the separation invariant. -/
theorem ghMarker_not_chain' (t : List Char) (h : ghMarker.isPrefixOf t = true) :
    ¬t.Chain' sepOk := by
  intro hc
  obtain ⟨t', rfl⟩ := List.isPrefixOf_iff_prefix.mp h
  have hgh : List.Chain' sepOk ghMarker := (List.chain'_append.mp hc).1
  have hchars : ghMarker = ['h', 't', 't', 'p', 's', ':', '/', '/', 'g', 'i', 't', 'h',
      'u', 'b', '.', 'c', 'o', 'm', '/'] := by decide
  rw [hchars] at hgh
  simp only [List.chain'_cons] at hgh
  exact hgh.2.2.2.2.2.2.1 ⟨rfl, rfl⟩

/-- On a list with no adjacent slashes, the marker-removal scan copies
its input unchanged, whatever the fuel. -/
theorem dropGh_no_marker (s : List Char) (hc : s.Chain' sepOk) :
    ∀ fuel, dropGh fuel s = s := by
  induction s with
  | nil => intro fuel; cases fuel <;> rfl
  | cons c rest ih =>
    intro fuel
    cases fuel with
    | zero => rfl
    | succ f =>
      rw [dropGh, if_neg]
      · rw [ih hc.tail f]
      · intro hp
        exact ghMarker_not_chain' _ hp hc

theorem ghMarker_cons : ghMarker = 'h' :: "ttps://github.com/".data := by decide

/-- Removing the marker from `marker ++ js` yields `js` when `js` has
no adjacent slashes. -/
theorem dropGh_strips (js : List Char) (hc : js.Chain' sepOk) (fuel : Nat)
    (hf : 1 ≤ fuel) : dropGh fuel (ghMarker ++ js) = js := by
  obtain ⟨f, rfl⟩ : ∃ f, fuel = f + 1 := ⟨fuel - 1, by omega⟩
  have hpre : ghMarker.isPrefixOf ('h' :: ("ttps://github.com/".data ++ js)) = true := by
    rw [← List.cons_append, ← ghMarker_cons]
    exact List.isPrefixOf_iff_prefix.mpr (List.prefix_append _ _)
  rw [ghMarker_cons, List.cons_append, dropGh, if_pos hpre, ← List.cons_append,
    ← ghMarker_cons, List.drop_left]
  exact dropGh_no_marker js hc f

/-- Splitting a slash-free list is the identity (one field). -/
theorem splitOnChar_no_sep (l : List Char) (h : '/' ∉ l) : splitOnChar '/' l = [l] := by
  induction l with
  | nil => rfl
  | cons c rest ih =>
    have hc : ¬(c = '/') := by
      intro he
      subst he
      exact h (List.mem_cons_self _ _)
    rw [splitOnChar, if_neg hc, ih (fun hm => h (List.mem_cons_of_mem c hm))]

/-- Splitting past a slash-free head segment peels it off. -/
theorem splitOnChar_append (l r : List Char) (h : '/' ∉ l) :
    splitOnChar '/' (l ++ '/' :: r) = l :: splitOnChar '/' r := by
  induction l with
  | nil =>
    show splitOnChar '/' ('/' :: r) = [] :: splitOnChar '/' r
    rw [splitOnChar, if_pos rfl]
  | cons c rest ih =>
    have hc : ¬(c = '/') := by
      intro he
      subst he
      exact h (List.mem_cons_self _ _)
    rw [List.cons_append, splitOnChar, if_neg hc,
      ih (fun hm => h (List.mem_cons_of_mem c hm))]

/-- Splitting inverts the character-level join of slash-free segments. -/
theorem splitOnChar_charJoin : ∀ L : List (List Char), L ≠ [] →
    (∀ l ∈ L, '/' ∉ l) → splitOnChar '/' (charJoin L) = L
  | [], h, _ => absurd rfl h
  | [l], _, hl => splitOnChar_no_sep l (hl l (List.mem_singleton.mpr rfl))
  | l :: l' :: ls, _, hl => by
    show splitOnChar '/' (l ++ '/' :: charJoin (l' :: ls)) = l :: l' :: ls
    rw [splitOnChar_append _ _ (hl l (List.mem_cons_self _ _)),
      splitOnChar_charJoin (l' :: ls) (by simp)
        (fun x hx => hl x (List.mem_cons_of_mem _ hx))]

/-- The join of nonempty slash-free segments ends in a character that is
not a slash. -/
theorem charJoin_reverse_head : ∀ L : List (List Char), L ≠ [] →
    (∀ l ∈ L, l ≠ [] ∧ '/' ∉ l) →
    ∃ a t, (charJoin L).reverse = a :: t ∧ ¬(a = '/')
  | [], h, _ => absurd rfl h
  | [l], _, hl => by
    obtain ⟨hne, hns⟩ := hl l (List.mem_singleton.mpr rfl)
    show ∃ a t, l.reverse = a :: t ∧ ¬(a = '/')
    rcases hr : l.reverse with _ | ⟨a, t⟩
    · exact absurd (by simpa using congrArg List.reverse hr) hne
    · refine ⟨a, t, rfl, ?_⟩
      intro ha
      have ham : a ∈ l := by
        rw [← List.mem_reverse, hr]
        exact List.mem_cons_self _ _
      rw [ha] at ham
      exact hns ham
  | l :: l' :: ls, _, hl => by
    obtain ⟨a, t, ht, ha⟩ := charJoin_reverse_head (l' :: ls) (by simp)
      (fun x hx => hl x (List.mem_cons_of_mem _ hx))
    refine ⟨a, t ++ '/' :: l.reverse, ?_, ha⟩
    show (l ++ '/' :: charJoin (l' :: ls)).reverse = a :: (t ++ '/' :: l.reverse)
    rw [List.reverse_append, List.reverse_cons, ht]
    simp

/-- Splitting the data of strings and rebuilding them is the
identity. -/
theorem map_mk_data : ∀ ss : List String,
    List.map (fun l => String.mk l) (ss.map String.data) = ss
  | [] => rfl
  | s :: rest => by
    rw [List.map_cons, List.map_cons, map_mk_data rest]

/-- Refinement of `parse_github_url` on well-formed `github.com` browse
URLs: the result is exactly the four-segment `tree` shape check over
the path segments. -/
theorem parse_browse_segs (segs : List String) (hne : segs ≠ [])
    (hs : ∀ s ∈ segs, s.data ≠ [] ∧ '/' ∉ s.data) :
    parse_github_url ("https://github.com/" ++ joinSlash segs) = partsToInfo segs := by
  have hLprop : ∀ l ∈ segs.map String.data, l ≠ [] ∧ '/' ∉ l := by
    intro l hl
    obtain ⟨s, hsin, rfl⟩ := List.mem_map.mp hl
    exact hs s hsin
  have hLne : segs.map String.data ≠ [] := by
    intro h0
    exact hne (List.map_eq_nil_iff.mp h0)
  have hdata : ("https://github.com/" ++ joinSlash segs).data =
      ghMarker ++ charJoin (segs.map String.data) := by
    rw [String.data_append, joinSlash_data]
    rfl
  have hune : "https://github.com/" ++ joinSlash segs ≠ "" := by
    intro h0
    have h1 := congrArg String.data h0
    rw [hdata, ghMarker_cons] at h1
    exact absurd h1 (by simp)
  obtain ⟨a, t, hrev, hna⟩ := charJoin_reverse_head (segs.map String.data) hLne hLprop
  have hchain := charJoin_chain' (segs.map String.data) hLprop
  have hstrip : (("https://github.com/" ++ joinSlash segs).data.reverse.dropWhile
      (fun c => c = '/')).reverse = ghMarker ++ charJoin (segs.map String.data) := by
    rw [hdata, List.reverse_append, hrev, List.cons_append, List.dropWhile_cons,
      if_neg (by simp [hna]), ← List.cons_append, ← hrev, ← List.reverse_append,
      List.reverse_reverse]
  have hparts : (splitOnChar '/'
      (dropGh (ghMarker ++ charJoin (segs.map String.data)).length
        (ghMarker ++ charJoin (segs.map String.data)))).map (fun l => String.mk l) =
      segs := by
    rw [dropGh_strips (charJoin (segs.map String.data)) hchain _
        (by rw [ghMarker_cons]; simp),
      splitOnChar_charJoin (segs.map String.data) hLne
        (fun l hl => (hLprop l hl).2)]
    exact map_mk_data segs
  rw [parse_github_url, if_neg hune, hstrip, parseCore, hparts]

/-- Claim C3 counterexample: the code never isolates the host — it only
strips the literal `https://github.com/` — so for the URL
`https://tree/x/y`, whose host is the word `tree` and which has only
two path segments after the host, the scheme and host become parts and
parsing wrongly SUCCEEDS, refuting the claim that such URLs return
absent. -/
theorem c3_host_counterexample : ¬claimC3 := by
  intro h
  have hx := h "tree" ["x", "y"] (by decide) (by decide) (by decide) (Or.inl (by decide))
  exact absurd hx (by decide)

/-- Claim C3 (amended): restricted to URLs on the host the code
recognizes — `https://github.com/` followed by slash-free nonempty path
segments — a URL with fewer than four path segments after the host, or
whose third segment is not the literal token `tree`, parses to `none`;
trailing slashes are stripped before parsing (appending `/` never
changes the result), and the path may be empty, meaning repository
root. -/
theorem c3_reject_malformed :
    (∀ segs : List String,
      (∀ s ∈ segs, s.data ≠ [] ∧ '/' ∉ s.data) →
      (segs.length < 4 ∨ segs.getD 2 "" ≠ "tree") →
      parse_github_url ("https://github.com/" ++ joinSlash segs) = none) ∧
    (∀ u : String, parse_github_url (u ++ "/") = parse_github_url u) ∧
    parse_github_url "https://github.com/a/b/tree/c" = some ⟨"a", "b", "c", ""⟩ := by
  refine ⟨?_, ?_, by decide⟩
  · intro segs hs hcond
    rcases segs with _ | ⟨a, _ | ⟨b, _ | ⟨c, _ | ⟨e, rest⟩⟩⟩⟩
    · decide
    · rw [parse_browse_segs [a] (by simp) hs]
      rfl
    · rw [parse_browse_segs [a, b] (by simp) hs]
      rfl
    · rw [parse_browse_segs [a, b, c] (by simp) hs]
      rfl
    · have hctree : ¬(c = "tree") := by
        intro hc
        rcases hcond with hlen | hget
        · simp at hlen
          omega
        · exact hget ((show (a :: b :: c :: e :: rest).getD 2 "" = c from rfl).trans hc)
      rw [parse_browse_segs (a :: b :: c :: e :: rest) (by simp) hs, partsToInfo,
        if_neg hctree]
  · intro u
    by_cases hu : u = ""
    · subst hu
      decide
    · have hu2 : ¬(u ++ "/" = "") := by
        intro h0
        have h1 := congrArg String.data h0
        rw [String.data_append] at h1
        exact absurd h1 (by simp)
      rw [parse_github_url, parse_github_url, if_neg hu2, if_neg hu]
      congr 1
      rw [String.data_append]
      show ((u.data ++ ['/']).reverse.dropWhile (fun c => c = '/')).reverse = _
      rw [List.reverse_append]
      show (('/' :: u.data.reverse).dropWhile (fun c => c = '/')).reverse = _
      rw [List.dropWhile_cons, if_pos (by decide)]

theorem c3_reject_malformed_witness :
    parse_github_url ("https://github.com/" ++ joinSlash ["a", "b", "c"]) = none ∧
    parse_github_url ("x" ++ "/") = parse_github_url "x" :=
  ⟨c3_reject_malformed.1 ["a", "b", "c"] (by decide) (Or.inl (by decide)),
   c3_reject_malformed.2.1 "x"⟩
